import Mathlib

/-!
Shallow embedding of `src/client/src/services/socket.js`: the socket service
of the `equal` client.  The service keeps an ordered trade buffer, applies a
clock-skew correction negotiated on `welcome`, classifies inbound frames,
schedules reconnection with growing backoff, and backfills history over HTTP
with URL-based deduplication.  Pure fragments of the JS code become Lean
functions; the mutable fields of the Vue instance become an explicit
`SocketState` record threaded through the handlers.
-/

/-- A trade tuple `[exchange, timestamp, price, size]`; the ordering key is
array position 1 (`timestamp`), in integer milliseconds. -/
structure Trade where
  exchange : String
  timestamp : Int
  price : Int
  size : Int
deriving Repr, DecidableEq, Inhabited

/-- The ordering induced by the JS sort comparator `(a, b) => a[1] - b[1]`:
compare trades by their timestamp. -/
def tsLe (a b : Trade) : Prop := a.timestamp ≤ b.timestamp

instance : DecidableRel tsLe := fun a b => by unfold tsLe; infer_instance

instance : IsTotal Trade tsLe := ⟨fun a b => Int.le_total a.timestamp b.timestamp⟩

instance : IsTrans Trade tsLe := ⟨fun _ _ _ h h' => le_trans h h'⟩

/-- `data.sort((a, b) => a[1] - b[1])` in `socket.onmessage`: a stable
ascending sort by timestamp (JS `Array.prototype.sort` is stable, so any
stable sort models its observable result). -/
def sortTrades (l : List Trade) : List Trade := l.insertionSort tsLe

/-- The in-place clock-skew correction loop `trades[i][1] -= this.delay`,
applied only when `this.delayed`. -/
def correctBatch (delayed : Bool) (delay : Int) (l : List Trade) : List Trade :=
  if delayed then l.map (fun t => { t with timestamp := t.timestamp - delay }) else l

/-- Live-batch branch of `socket.onmessage` (array frame): sort the batch,
clock-correct it, and concatenate it to the buffer's tail
(`this.trades = this.trades.concat(data)`). -/
def liveApply (delayed : Bool) (delay : Int) (buffer batch : List Trade) : List Trade :=
  buffer ++ correctBatch delayed delay (sortTrades batch)

/-- `this.trades[0][1]` — only evaluated by the source on a nonempty buffer. -/
def headTimestamp : List Trade → Int
  | [] => 0
  | t :: _ => t.timestamp

/-- `this.trades[this.trades.length - 1][1]` — only evaluated by the source on
a nonempty buffer. -/
def lastTimestamp (l : List Trade) : Int :=
  match l.getLast? with
  | some t => t.timestamp
  | none => 0

/-- The boundary merge in the fetch success handler: trades at or before the
buffer's first timestamp are prepended, trades at or after the buffer's last
timestamp are appended, both filters being computed against the original
buffer before either concatenation happens. -/
def mergeHistorical (buffer batch : List Trade) : List Trade :=
  let hd := headTimestamp buffer
  let lst := lastTimestamp buffer
  let pre := batch.filter (fun t => t.timestamp ≤ hd)
  let post := batch.filter (fun t => lst ≤ t.timestamp)
  let merged := if pre.isEmpty then buffer else pre ++ buffer
  if post.isEmpty then merged else merged ++ post

/-- Buffer update of the fetch success handler: clock-correct the response,
then replace the buffer (`willReplace || !this.trades.length`) or merge at
the boundaries. -/
def histApply (delayed : Bool) (delay : Int) (willReplace : Bool)
    (buffer batch : List Trade) : List Trade :=
  let corrected := correctBatch delayed delay batch
  if willReplace ∨ buffer.isEmpty then corrected else mergeHistorical buffer corrected

/-- The backward scan of `trim`: the JS loop runs `index` from
`trades.length - 1` down to `0` and breaks at the first (hence largest) index
whose trade has `timestamp < cutoff`; `none` models the loop falling through
to `index = -1`. -/
def trimScan (trades : List Trade) (cutoff : Int) : Nat → Option Nat
  | 0 => none
  | i + 1 =>
      if (trades.getD i default).timestamp < cutoff then some i
      else trimScan trades cutoff i

/-- `trim(timestamp)`: drop the prefix ending at the break index
(`this.trades.splice(0, ++index)`); the returned flag records whether the
`trim` event was emitted (the scan found a qualifying trade). -/
def trim (trades : List Trade) (cutoff : Int) : List Trade × Bool :=
  match trimScan trades cutoff trades.length with
  | none => (trades, false)
  | some i => (trades.drop (i + 1), true)

/-- The buffer invariant from the spec: timestamps are non-decreasing along
the list. -/
def TsNondec (l : List Trade) : Prop :=
  l.Pairwise tsLe

instance : DecidablePred TsNondec := fun l => by
  unfold TsNondec; infer_instance

/-- Shorthand for a trade carrying only its ordering key. -/
def mkT (ts : Int) : Trade := ⟨"", ts, 0, 0⟩

/-- JSON values as produced by `JSON.parse`. -/
inductive JValue where
  | jnull
  | jbool (b : Bool)
  | jnum (n : Int)
  | jstr (s : String)
  | jarr (xs : List JValue)
  | jobj (fields : List (String × JValue))
deriving Repr, Inhabited

/-- JS truthiness of a parsed value, as tested by `if (!data)`. -/
def truthy : JValue → Bool
  | .jnull => false
  | .jbool b => b
  | .jnum n => n != 0
  | .jstr s => s != ""
  | .jarr _ => true
  | .jobj _ => true

/-- Property access `v.k`: `some` on an object that has the key, otherwise
`none` (JS `undefined`). -/
def jGet (v : JValue) (k : String) : Option JValue :=
  match v with
  | .jobj fs => (fs.find? (fun p => p.1 == k)).map (·.2)
  | _ => none

/-- Read a JS value as a string, defaulting non-strings. -/
def jStrD (v : Option JValue) : String :=
  match v with
  | some (.jstr s) => s
  | _ => ""

/-- Read a JS value as a number, defaulting non-numbers. -/
def jNumD (v : Option JValue) : Int :=
  match v with
  | some (.jnum n) => n
  | _ => 0

/-- Positional decoding of a trade tuple `[exchange, timestamp, price, size]`
(the code reads position 1 as the sort key). -/
def decodeTrade (v : JValue) : Trade :=
  match v with
  | .jarr xs => ⟨jStrD xs[0]?, jNumD xs[1]?, jNumD xs[2]?, jNumD xs[3]?⟩
  | _ => default

/-- Notifications emitted through `this.$emit`; alert payloads are identified
by their `id` and `type` fields. -/
inductive Event where
  | evConnected
  | evPrice (value : String) (state : String)
  | evTrades (batch : List Trade)
  | evWelcome
  | evAdmin
  | evExchanges (xs : List String)
  | evPair (p : String) (forced : Bool)
  | evAlert (id : String) (ty : String)
  | evDisconnected
  | evError
  | evFetchProgress
  | evHistory (replaced : Bool)
  | evTrim (cutoff : Int)
deriving Repr, DecidableEq

/-- The mutable fields of the service instance, together with the bits of the
host runtime the claims observe: the pool of pending reconnect timers, the log
of delays passed to `setTimeout`, and the log of URLs actually requested. -/
structure SocketState where
  httpUrl : String := "http://localhost:3000"
  delay : Int := 0
  delayed : Bool := false
  trades : List Trade := []
  exchanges : List String := []
  connected : Bool := false
  socketOpen : Bool := false
  reconnectionDelay : ℚ := 2000
  reconnectionTimeout : Option Nat := none
  pendingTimers : List (Nat × ℚ) := []
  nextTimerId : Nat := 0
  scheduledLog : List ℚ := []
  lastFetchUrl : Option String := none
  httpRequests : List String := []
  debugFlag : Bool := false
deriving Repr, DecidableEq

/-- The fresh service instance: `delay: 0`, empty buffers, not connected,
`reconnectionDelay: 2000`, and `this.delayed` still unset (falsy). -/
def initialState : SocketState := {}

/-- The `switch (data.type)` of `socket.onmessage`, reached for every truthy
non-batch value (`typeof data.type` is always a truthy string).  An
unmatched `type` falls through with no mutation and no event. -/
def dispatchControl (now : Int) (st : SocketState) (data : JValue) :
    Except String (SocketState × List Event) :=
  match jGet data "type" with
  | some (.jstr "welcome") =>
      match jGet data "exchanges" with
      | some (.jarr exs) =>
          let ids := (exs.filter (fun e => truthy ((jGet e "connected").getD .jnull))).map
            (fun e => jStrD (jGet e "id"))
          let delay : Int := match jGet data "timestamp" with
            | some (.jnum n) => if n != 0 then n - now else 0
            | _ => 0
          let delayed : Bool := decide (2000 < delay.natAbs)
          let adminEvs := if truthy ((jGet data "admin").getD .jnull) then [Event.evAdmin] else []
          .ok ({ st with exchanges := ids, delay := delay, delayed := delayed },
            [Event.evWelcome] ++ adminEvs ++
              [.evExchanges ids, .evPair (jStrD (jGet data "pair")) true,
               .evAlert "server_status" "info"])
      | _ => .error "TypeError: data.exchanges.filter is not a function"
  | some (.jstr "pair") =>
      .ok (st, [.evPair (jStrD (jGet data "pair")) false, .evAlert "pair" "info"])
  | some (.jstr "exchange_connected") =>
      let id := jStrD (jGet data "id")
      let debugEvs := if st.debugFlag then [Event.evAlert (id ++ "_status") "success"] else []
      let exchanges := if st.exchanges.contains id then st.exchanges else st.exchanges ++ [id]
      .ok ({ st with exchanges := exchanges }, debugEvs ++ [.evExchanges exchanges])
  | some (.jstr "exchange_disconnected") =>
      let id := jStrD (jGet data "id")
      let debugEvs := if st.debugFlag then [Event.evAlert (id ++ "_status") "error"] else []
      let exchanges := st.exchanges.erase id
      .ok ({ st with exchanges := exchanges }, debugEvs ++ [.evExchanges exchanges])
  | some (.jstr "exchange_error") =>
      .ok (st, if st.debugFlag then [Event.evAlert (jStrD (jGet data "id") ++ "_status") "error"] else [])
  | _ => .ok (st, [])

/-- `socket.onmessage`: `none` stands for a payload `JSON.parse` rejects
(malformed or empty), which throws before any of the handler's code runs; a
falsy parsed value hits the explicit `throw new Error(...)`.  A non-empty
array is the trade-batch branch; everything else reaches the control switch.
`.error` means the exception escaped the handler with no state mutated. -/
def handleMessage (now : Int) (st : SocketState) (msg : Option JValue) :
    Except String (SocketState × List Event) :=
  match msg with
  | none => .error "SyntaxError: JSON.parse"
  | some data =>
    if truthy data then
      match data with
      | .jarr (x :: xs) =>
          let corrected := correctBatch st.delayed st.delay (sortTrades ((x :: xs).map decodeTrade))
          .ok ({ st with trades := st.trades ++ corrected }, [.evTrades corrected])
      | _ => dispatchControl now st data
    else .error "Unable to read socket message"

/-- `socket.onopen`: mark connected, emit `connected` and the neutral price,
and reset the backoff base to its warm value 5000. -/
def onopen (st : SocketState) : SocketState × List Event :=
  ({ st with connected := true, socketOpen := true, reconnectionDelay := 5000 },
   [.evConnected, .evPrice "???" "neutral"])

/-- `reconnect()`: no-op when the socket is open; otherwise `clearTimeout`
cancels the stored timer, `setTimeout` registers a fresh attempt after the
current backoff delay, and the delay grows by the factor 1.1. -/
def reconnect (st : SocketState) : SocketState :=
  if st.socketOpen then st
  else
    { st with
      pendingTimers := st.pendingTimers.filter (fun p => some p.1 != st.reconnectionTimeout)
        ++ [(st.nextTimerId, st.reconnectionDelay)],
      reconnectionTimeout := some st.nextTimerId,
      nextTimerId := st.nextTimerId + 1,
      scheduledLog := st.scheduledLog ++ [st.reconnectionDelay],
      reconnectionDelay := st.reconnectionDelay * (11 / 10 : ℚ) }

/-- `n` consecutive `reconnect()` calls. -/
def reconnectN : Nat → SocketState → SocketState
  | 0, st => st
  | n + 1, st => reconnectN n (reconnect st)

/-- Result of the synchronous part of `fetch`. -/
inductive FetchOutcome where
  | dedup
  | issued (url : String)
deriving Repr, DecidableEq

/-- The backfill URL template `${this.http_url}/history/${from}/${to}`
(`parseInt` on an integer-valued number is the identity). -/
def historyUrl (base : String) (fromTs toTs : Int) : String :=
  base ++ "/history/" ++ toString fromTs ++ "/" ++ toString toTs

/-- The synchronous part of `fetch(from, to, willReplace)`: resolve the
relative mode (`!to`), build the URL, and either short-circuit to a resolved
no-op on the deduplication key `lastFetchUrl` or record the key and issue the
request.  Also returns the effective `willReplace` for the continuation. -/
def fetchStart (now : Int) (st : SocketState) (fromTs : Int) (toTs : Option Int)
    (willReplace : Bool) : SocketState × FetchOutcome × Bool :=
  let t0 := toTs.getD 0
  let (f, t, wr) :=
    if t0 = 0 then (now - fromTs * 1000 * 60, now, true) else (fromTs, t0, willReplace)
  let url := historyUrl st.httpUrl f t
  if st.lastFetchUrl = some url then (st, .dedup, wr)
  else ({ st with lastFetchUrl := some url, httpRequests := st.httpRequests ++ [url] },
    .issued url, wr)

/-- The fetch success continuation (`.then`): clock-correct the response,
replace or boundary-merge the buffer, and emit `history` exactly when the
buffer's length changed. -/
def fetchSuccess (st : SocketState) (willReplace : Bool) (response : List Trade) :
    SocketState × List Event :=
  let count := st.trades.length
  let newTrades := histApply st.delayed st.delay willReplace st.trades response
  ({ st with trades := newTrades },
   if count ≠ newTrades.length then [Event.evHistory willReplace] else [])

/-- The fetch failure continuation (`.catch`): emit the error alert when the
error value is truthy and reject; `lastFetchUrl` is not touched. -/
def fetchFail (st : SocketState) (errTruthy : Bool) : SocketState × List Event :=
  (st, if errTruthy then [Event.evAlert "fetch_error" "error"] else [])

/-- One buffer-mutating operation: a live batch frame or a resolved
historical fetch. -/
inductive BufOp where
  | live (batch : List Trade)
  | hist (willReplace : Bool) (batch : List Trade)
deriving Repr, DecidableEq

/-- Effect of one operation on the buffer, for fixed clock correction. -/
def applyOp (delayed : Bool) (delay : Int) (buffer : List Trade) : BufOp → List Trade
  | .live batch => liveApply delayed delay buffer batch
  | .hist wr batch => histApply delayed delay wr buffer batch

/-- Effect of a sequence of operations, applied left to right. -/
def applyOps (delayed : Bool) (delay : Int) (buffer : List Trade) : List BufOp → List Trade
  | [] => buffer
  | op :: ops => applyOps delayed delay (applyOp delayed delay buffer op) ops

/-- Precondition of one operation, evaluated against the buffer it hits:
batches are individually sorted, and a live batch must not reach back before
the buffer's last trade — the code concatenates it without any check. -/
def opOk (delayed : Bool) (delay : Int) (buffer : List Trade) : BufOp → Prop
  | .live batch => TsNondec batch ∧
      (buffer = [] ∨ ∀ t ∈ correctBatch delayed delay (sortTrades batch),
        lastTimestamp buffer ≤ t.timestamp)
  | .hist _ batch => TsNondec batch

/-- The per-step preconditions along a run. -/
def opsOk (delayed : Bool) (delay : Int) (buffer : List Trade) : List BufOp → Prop
  | [] => True
  | op :: ops => opOk delayed delay buffer op ∧
      opsOk delayed delay (applyOp delayed delay buffer op) ops

instance opOkDecidable (delayed : Bool) (delay : Int) (buffer : List Trade) :
    (op : BufOp) → Decidable (opOk delayed delay buffer op)
  | .live _ => by unfold opOk; infer_instance
  | .hist _ _ => by unfold opOk; infer_instance

instance opsOkDecidable (delayed : Bool) (delay : Int) :
    (buffer : List Trade) → (ops : List BufOp) → Decidable (opsOk delayed delay buffer ops)
  | _, [] => .isTrue trivial
  | buffer, op :: ops =>
      have : Decidable (opsOk delayed delay (applyOp delayed delay buffer op) ops) :=
        opsOkDecidable delayed delay _ ops
      by unfold opsOk; infer_instance

/-- Every pending timer carries the id stored in `reconnectionTimeout`, and
there is at most one pending timer. -/
def TimerInv (st : SocketState) : Prop :=
  st.pendingTimers.length ≤ 1
  ∧ ∀ p ∈ st.pendingTimers, st.reconnectionTimeout = some p.1

instance : DecidablePred TimerInv := fun st => by unfold TimerInv; infer_instance

/-- The wire `welcome` frame for a handshake reporting server time `ts`,
tracking BTCUSD with no connected exchanges. -/
def welcomeFrame (ts : Int) : JValue :=
  .jobj [("type", .jstr "welcome"), ("pair", .jstr "BTCUSD"),
    ("exchanges", .jarr []), ("timestamp", .jnum ts)]

/-! ### Helper lemmas about the ordered buffer -/

lemma sortTrades_sorted (l : List Trade) : TsNondec (sortTrades l) :=
  List.sorted_insertionSort tsLe l

lemma sortTrades_of_sorted {l : List Trade} (h : TsNondec l) : sortTrades l = l :=
  List.Sorted.insertionSort_eq h

lemma tsNondec_correctBatch {l : List Trade} (h : TsNondec l)
    (delayed : Bool) (delay : Int) : TsNondec (correctBatch delayed delay l) := by
  unfold correctBatch
  split
  · exact List.pairwise_map.mpr (h.imp fun hab => Int.sub_le_sub_right hab delay)
  · exact h

lemma headTimestamp_le_mem {l : List Trade} (h : TsNondec l) :
    ∀ a ∈ l, headTimestamp l ≤ a.timestamp := by
  cases l with
  | nil => intro a ha; cases ha
  | cons t rest =>
    intro a ha
    rcases List.mem_cons.mp ha with rfl | ha
    · exact le_refl _
    · exact (List.pairwise_cons.mp h).1 a ha

lemma lastTimestamp_cons_cons (a b : Trade) (l : List Trade) :
    lastTimestamp (a :: b :: l) = lastTimestamp (b :: l) := by
  simp [lastTimestamp, List.getLast?_cons_cons]

lemma mem_le_lastTimestamp {l : List Trade} (h : TsNondec l) :
    ∀ a ∈ l, a.timestamp ≤ lastTimestamp l := by
  induction l with
  | nil => intro a ha; cases ha
  | cons t rest ih =>
    intro a ha
    cases rest with
    | nil =>
      rcases List.mem_cons.mp ha with rfl | ha
      · exact le_refl _
      · cases ha
    | cons u rest' =>
      rw [lastTimestamp_cons_cons]
      rcases List.mem_cons.mp ha with rfl | ha
      · exact le_trans ((List.pairwise_cons.mp h).1 u (List.mem_cons_self u rest'))
          (ih h.of_cons u (List.mem_cons_self u rest'))
      · exact ih h.of_cons a ha

lemma headTimestamp_le_lastTimestamp {l : List Trade} (h : TsNondec l) :
    headTimestamp l ≤ lastTimestamp l := by
  cases l with
  | nil => exact le_refl 0
  | cons t rest =>
    exact mem_le_lastTimestamp h t (List.mem_cons_self t rest)

/-- The two concatenation guards of the merge collapse to an unconditional
three-part concatenation. -/
lemma mergeHistorical_eq (buffer batch : List Trade) :
    mergeHistorical buffer batch
      = batch.filter (fun t => t.timestamp ≤ headTimestamp buffer) ++ buffer
        ++ batch.filter (fun t => lastTimestamp buffer ≤ t.timestamp) := by
  unfold mergeHistorical
  by_cases h1 : batch.filter (fun t => t.timestamp ≤ headTimestamp buffer) = []
  · by_cases h2 : batch.filter (fun t => lastTimestamp buffer ≤ t.timestamp) = []
    · simp [h1, h2]
    · simp [h1, List.isEmpty_iff, h2]
  · by_cases h2 : batch.filter (fun t => lastTimestamp buffer ≤ t.timestamp) = []
    · simp [List.isEmpty_iff, h1, h2]
    · simp [List.isEmpty_iff, h1, h2, List.append_assoc]

lemma tsNondec_mergeHistorical {buffer batch : List Trade}
    (hb : TsNondec buffer) (ht : TsNondec batch) :
    TsNondec (mergeHistorical buffer batch) := by
  rw [mergeHistorical_eq]
  unfold TsNondec at *
  rw [List.append_assoc, List.pairwise_append]
  refine ⟨ht.sublist (List.filter_sublist batch), ?_, ?_⟩
  · rw [List.pairwise_append]
    refine ⟨hb, ht.sublist (List.filter_sublist batch), ?_⟩
    intro a ha b hbm
    have hb2 := (List.mem_filter.mp hbm).2
    exact le_trans (mem_le_lastTimestamp hb a ha) (of_decide_eq_true hb2)
  · intro a ha b hbm
    have ha2 := of_decide_eq_true (List.mem_filter.mp ha).2
    rcases List.mem_append.mp hbm with hbuf | hpost
    · exact le_trans ha2 (headTimestamp_le_mem hb b hbuf)
    · have hb2 := of_decide_eq_true (List.mem_filter.mp hpost).2
      exact le_trans ha2 (le_trans (headTimestamp_le_lastTimestamp hb) hb2)

lemma tsNondec_liveApply {delayed : Bool} {delay : Int} {buffer batch : List Trade}
    (hb : TsNondec buffer)
    (hlate : buffer = [] ∨ ∀ t ∈ correctBatch delayed delay (sortTrades batch),
      lastTimestamp buffer ≤ t.timestamp) :
    TsNondec (liveApply delayed delay buffer batch) := by
  unfold liveApply TsNondec
  rw [List.pairwise_append]
  refine ⟨hb, tsNondec_correctBatch (sortTrades_sorted batch) delayed delay, ?_⟩
  intro a ha b hbm
  rcases hlate with rfl | hlate
  · cases ha
  · exact le_trans (mem_le_lastTimestamp hb a ha) (hlate b hbm)

lemma tsNondec_histApply {delayed : Bool} {delay : Int} {wr : Bool}
    {buffer batch : List Trade} (hb : TsNondec buffer) (ht : TsNondec batch) :
    TsNondec (histApply delayed delay wr buffer batch) := by
  unfold histApply
  split
  · exact tsNondec_correctBatch ht delayed delay
  · exact tsNondec_mergeHistorical hb (tsNondec_correctBatch ht delayed delay)

lemma tsNondec_applyOp {delayed : Bool} {delay : Int} {buffer : List Trade}
    {op : BufOp} (hb : TsNondec buffer) (hop : opOk delayed delay buffer op) :
    TsNondec (applyOp delayed delay buffer op) := by
  cases op with
  | live batch => exact tsNondec_liveApply hb hop.2
  | hist wr batch => exact tsNondec_histApply hb hop

lemma tsNondec_applyOps {delayed : Bool} {delay : Int} :
    ∀ (ops : List BufOp) (buffer : List Trade), TsNondec buffer →
      opsOk delayed delay buffer ops → TsNondec (applyOps delayed delay buffer ops)
  | [], _, hb, _ => hb
  | _ :: ops, _, hb, hops =>
      tsNondec_applyOps ops _ (tsNondec_applyOp hb hops.1) hops.2

lemma opsOk_of_append {delayed : Bool} {delay : Int} :
    ∀ (pre suf : List BufOp) (buffer : List Trade),
      opsOk delayed delay buffer (pre ++ suf) → opsOk delayed delay buffer pre
  | [], _, _, _ => trivial
  | _ :: pre, suf, _, hops =>
      ⟨hops.1, opsOk_of_append pre suf _ hops.2⟩

/-! ### Helper lemmas about `trim` -/

lemma trimScan_cons (t : Trade) (rest : List Trade) (T : Int) :
    ∀ n, trimScan (t :: rest) T (n + 1)
      = match trimScan rest T n with
        | some i => some (i + 1)
        | none => if t.timestamp < T then some 0 else none := by
  intro n
  induction n with
  | zero => simp [trimScan]
  | succ n ih =>
    show (if ((t :: rest).getD (n + 1) default).timestamp < T then some (n + 1)
          else trimScan (t :: rest) T (n + 1)) = _
    rw [List.getD_cons_succ]
    by_cases h : (rest.getD n default).timestamp < T
    · rw [if_pos h]
      conv_rhs => rw [trimScan]
      rw [if_pos h]
    · rw [if_neg h, ih]
      conv_rhs => rw [trimScan]
      rw [if_neg h]

lemma trim_cons (t : Trade) (rest : List Trade) (T : Int) :
    trim (t :: rest) T
      = if (trim rest T).2 then ((trim rest T).1, true)
        else if t.timestamp < T then (rest, true) else (t :: rest, false) := by
  unfold trim
  rw [show (t :: rest).length = rest.length + 1 from rfl, trimScan_cons]
  cases h : trimScan rest T rest.length with
  | none => by_cases ht : t.timestamp < T <;> simp [ht]
  | some i => simp [List.drop_succ_cons]

lemma trim_flag_false_iff (T : Int) (l : List Trade) :
    (trim l T).2 = false ↔ ∀ a ∈ l, ¬ a.timestamp < T := by
  induction l with
  | nil => simp [trim, trimScan]
  | cons t rest ih =>
    rw [trim_cons]
    by_cases hflag : (trim rest T).2
    · rw [if_pos hflag]
      constructor
      · intro hcontra; cases hcontra
      · intro h
        have hfalse : (trim rest T).2 = false :=
          ih.mpr fun a ha => h a (List.mem_cons_of_mem t ha)
        rw [hflag] at hfalse; cases hfalse
    · rw [if_neg hflag]
      have hrest : ∀ a ∈ rest, ¬ a.timestamp < T :=
        ih.mp (Bool.not_eq_true _ ▸ eq_false_of_ne_true hflag)
      by_cases ht : t.timestamp < T
      · rw [if_pos ht]
        constructor
        · intro hcontra; cases hcontra
        · intro h; exact absurd ht (h t (List.mem_cons_self t rest))
      · rw [if_neg ht]
        constructor
        · intro _ a ha
          rcases List.mem_cons.mp ha with rfl | ha
          · exact ht
          · exact hrest a ha
        · intro _; rfl

lemma trim_of_flag_false {l : List Trade} {T : Int}
    (h : (trim l T).2 = false) : trim l T = (l, false) := by
  unfold trim at h ⊢
  cases hscan : trimScan l T l.length with
  | none => rfl
  | some i => rw [hscan] at h; cases h

lemma trim_fst_eq_dropWhile {l : List Trade} (h : TsNondec l) (T : Int) :
    (trim l T).1 = l.dropWhile (fun a => a.timestamp < T) := by
  induction l with
  | nil => rfl
  | cons t rest ih =>
    rw [trim_cons]
    by_cases hflag : (trim rest T).2
    · have hex : ¬ ∀ a ∈ rest, ¬ a.timestamp < T := by
        intro hall
        rw [(trim_flag_false_iff T rest).mpr hall] at hflag; cases hflag
      push_neg at hex
      obtain ⟨a, ha, haT⟩ := hex
      have htT : t.timestamp < T :=
        lt_of_le_of_lt ((List.pairwise_cons.mp h).1 a ha) haT
      rw [if_pos hflag]
      show (trim rest T).1 = _
      rw [ih h.of_cons, List.dropWhile_cons_of_pos (by simpa using htT)]
    · rw [if_neg hflag]
      have hrest : ∀ a ∈ rest, ¬ a.timestamp < T :=
        (trim_flag_false_iff T rest).mp (Bool.not_eq_true _ ▸ eq_false_of_ne_true hflag)
      by_cases ht : t.timestamp < T
      · rw [if_pos ht]
        show rest = _
        rw [List.dropWhile_cons_of_pos (by simpa using ht)]
        cases rest with
        | nil => rfl
        | cons u rest' =>
          rw [List.dropWhile_cons_of_neg
            (by simpa using hrest u (List.mem_cons_self u rest'))]
      · rw [if_neg ht, List.dropWhile_cons_of_neg (by simpa using ht)]

/-! ### Claims about the trade buffer -/

/-- C1, counterexample to the claim as stated: the two live batches `[100]`
and `[50]` are individually sorted and clock-corrected, yet after both
appends the buffer is `[100, 50]`, whose timestamps are not non-decreasing
(the live branch concatenates without checking the tail). -/
theorem tradeBuffer_ordering_counterexample :
    TsNondec [mkT 100] ∧ TsNondec [mkT 50] ∧
      ¬ TsNondec (applyOps false 0 [] [BufOp.live [mkT 100], BufOp.live [mkT 50]]) :=
  ⟨by decide, by decide, by decide⟩

/-- C1 (amended): for every sequence of live-batch appends and historical
merges with individually sorted, clock-corrected batches in which,
additionally, every live batch carries only timestamps at or after the
buffer's last trade at the moment it arrives, the buffer's timestamps are
non-decreasing after every operation (i.e. after every prefix of the
sequence). -/
theorem tradeBuffer_ordering_invariant (delayed : Bool) (delay : Int)
    (buffer : List Trade) (ops pre suf : List BufOp)
    (hb : TsNondec buffer) (hops : opsOk delayed delay buffer ops)
    (hsplit : ops = pre ++ suf) :
    TsNondec (applyOps delayed delay buffer pre) :=
  tsNondec_applyOps pre buffer hb (opsOk_of_append pre suf buffer (hsplit ▸ hops))

/-- Witness for C1's amended theorem at a concrete run. -/
theorem tradeBuffer_ordering_invariant_witness :
    (TsNondec [mkT 5]
      ∧ opsOk false 0 [mkT 5] [BufOp.live [mkT 7], BufOp.hist false [mkT 3, mkT 9]]
      ∧ [BufOp.live [mkT 7], BufOp.hist false [mkT 3, mkT 9]]
          = [BufOp.live [mkT 7]] ++ [BufOp.hist false [mkT 3, mkT 9]])
    ∧ TsNondec (applyOps false 0 [mkT 5] [BufOp.live [mkT 7]]) :=
  ⟨⟨by decide, by decide, by decide⟩,
    tradeBuffer_ordering_invariant false 0 [mkT 5]
      [BufOp.live [mkT 7], BufOp.hist false [mkT 3, mkT 9]]
      [BufOp.live [mkT 7]] [BufOp.hist false [mkT 3, mkT 9]]
      (by decide) (by decide) (by decide)⟩

/-- C2: with buffer timestamps `[100, 200, 300]` and the sorted historical
batch `[50, 150, 250, 350]` (no replace), the merge yields
`[50, 100, 200, 300, 350]`; in general the merge prepends the trades with
timestamp ≤ the buffer's first, appends those with timestamp ≥ the buffer's
last, both in their relative order, and drops the strictly interior ones. -/
theorem mergeHistorical_boundary_merge :
    ((histApply false 0 false [mkT 100, mkT 200, mkT 300]
        [mkT 50, mkT 150, mkT 250, mkT 350]).map Trade.timestamp
      = [50, 100, 200, 300, 350])
    ∧ ∀ buffer batch : List Trade,
        mergeHistorical buffer batch
          = batch.filter (fun t => t.timestamp ≤ headTimestamp buffer) ++ buffer
            ++ batch.filter (fun t => lastTimestamp buffer ≤ t.timestamp) :=
  ⟨by decide, mergeHistorical_eq⟩

/-- C3: on a sorted buffer `trim T` removes exactly the maximal prefix of
trades with timestamp < T; it is a no-op (and emits nothing) when the buffer
is empty or T ≤ the first timestamp, and it empties the buffer when T is
greater than every timestamp. -/
theorem trim_boundary (trades : List Trade) (T : Int) (h : TsNondec trades) :
    (trim trades T).1 = trades.dropWhile (fun t => t.timestamp < T)
    ∧ ((trades = [] ∨ T ≤ headTimestamp trades) → trim trades T = (trades, false))
    ∧ ((∀ t ∈ trades, t.timestamp < T) → (trim trades T).1 = []) := by
  refine ⟨trim_fst_eq_dropWhile h T, ?_, ?_⟩
  · intro hle
    apply trim_of_flag_false
    rw [trim_flag_false_iff]
    intro a ha
    rcases hle with rfl | hle
    · cases ha
    · exact not_lt.mpr (le_trans hle (headTimestamp_le_mem h a ha))
  · intro hall
    rw [trim_fst_eq_dropWhile h T, List.dropWhile_eq_nil_iff]
    intro x hx
    simpa using hall x hx

/-! ### Helper lemmas about the reconnect backoff -/

lemma reconnectN_spec : ∀ (n : Nat) (st : SocketState), st.socketOpen = false →
    (reconnectN n st).reconnectionDelay = st.reconnectionDelay * (11 / 10 : ℚ) ^ n
    ∧ (reconnectN n st).scheduledLog
        = st.scheduledLog
          ++ (List.range n).map (fun k => st.reconnectionDelay * (11 / 10 : ℚ) ^ k)
    ∧ (reconnectN n st).socketOpen = false := by
  intro n
  induction n with
  | zero => intro st h; simp [reconnectN, h]
  | succ n ih =>
    intro st h
    have hro : (reconnect st).socketOpen = false := by simp [reconnect, h]
    have hdelay : (reconnect st).reconnectionDelay
        = st.reconnectionDelay * (11 / 10 : ℚ) := by simp [reconnect, h]
    have hlog : (reconnect st).scheduledLog
        = st.scheduledLog ++ [st.reconnectionDelay] := by simp [reconnect, h]
    obtain ⟨h1, h2, h3⟩ := ih (reconnect st) hro
    refine ⟨?_, ?_, h3⟩
    · show (reconnectN n (reconnect st)).reconnectionDelay = _
      rw [h1, hdelay]; ring
    · show (reconnectN n (reconnect st)).scheduledLog = _
      rw [h2, hlog, hdelay, List.append_assoc]
      congr 1
      rw [List.range_succ_eq_map, List.map_cons, List.map_map, pow_zero, mul_one,
        List.singleton_append]
      congr 1
      apply List.map_congr_left
      intro k _
      show st.reconnectionDelay * (11 / 10 : ℚ) * (11 / 10 : ℚ) ^ k
        = st.reconnectionDelay * (11 / 10 : ℚ) ^ (k + 1)
      rw [pow_succ]; ring

lemma reconnect_filter_nil {st : SocketState} (hinv : TimerInv st) :
    st.pendingTimers.filter (fun p => some p.1 != st.reconnectionTimeout) = [] := by
  rw [List.filter_eq_nil_iff]
  intro p hp
  simp [hinv.2 p hp]

lemma reconnect_pending {st : SocketState} (hinv : TimerInv st)
    (h : st.socketOpen = false) :
    (reconnect st).pendingTimers = [(st.nextTimerId, st.reconnectionDelay)]
    ∧ (reconnect st).reconnectionTimeout = some st.nextTimerId
    ∧ (reconnect st).nextTimerId = st.nextTimerId + 1
    ∧ (reconnect st).socketOpen = false
    ∧ (reconnect st).reconnectionDelay = st.reconnectionDelay * (11 / 10 : ℚ) := by
  simp [reconnect, h, reconnect_filter_nil hinv]

lemma timerInv_reconnect {st : SocketState} (hinv : TimerInv st) :
    TimerInv (reconnect st) := by
  by_cases h : st.socketOpen = true
  · simpa [reconnect, h] using hinv
  · have h' : st.socketOpen = false := by simpa using h
    obtain ⟨hp, ht, -, -, -⟩ := reconnect_pending hinv h'
    refine ⟨by rw [hp]; simp, ?_⟩
    intro p hmem
    rw [hp] at hmem
    simp only [List.mem_singleton] at hmem
    rw [ht, hmem]

lemma timerInv_reconnectN : ∀ (n : Nat) (st : SocketState), TimerInv st →
    TimerInv (reconnectN n st)
  | 0, _, h => h
  | n + 1, _, h => timerInv_reconnectN n _ (timerInv_reconnect h)

/-! ### Claims about the connection lifecycle -/

/-- C7: the cold-start reconnect delay is 2000 ms; a successful open resets
it to the warm base 5000 ms; and after n consecutive `reconnect()` schedules
once the transport has closed, the last scheduled delay is
5000·1.1^(n−1) ms (the growth is a bare multiplication, never capped). -/
theorem backoff_growth (st : SocketState) (n : Nat) (hn : 1 ≤ n) :
    initialState.reconnectionDelay = 2000
    ∧ ((onopen st).1).reconnectionDelay = 5000
    ∧ (reconnectN n { (onopen st).1 with socketOpen := false }).scheduledLog.getLast?
        = some (5000 * (11 / 10 : ℚ) ^ (n - 1)) := by
  refine ⟨rfl, rfl, ?_⟩
  obtain ⟨m, rfl⟩ : ∃ m, n = m + 1 := ⟨n - 1, (Nat.succ_pred_eq_of_pos hn).symm⟩
  obtain ⟨-, hlog, -⟩ :=
    reconnectN_spec (m + 1) { (onopen st).1 with socketOpen := false } rfl
  rw [hlog, List.range_succ, List.map_append, List.map_singleton,
    ← List.append_assoc, List.getLast?_concat]
  simp [onopen]

/-- Witness for C7 with one reconnect schedule after an open. -/
theorem backoff_growth_witness :
    1 ≤ 1
    ∧ (initialState.reconnectionDelay = 2000
      ∧ ((onopen initialState).1).reconnectionDelay = 5000
      ∧ (reconnectN 1
            { (onopen initialState).1 with socketOpen := false }).scheduledLog.getLast?
          = some (5000 * (11 / 10 : ℚ) ^ (1 - 1))) :=
  ⟨by decide, backoff_growth initialState 1 (by decide)⟩

/-- C8: from any state satisfying the timer invariant, every sequence of
`reconnect()` calls leaves at most one pending reconnect timer, and two
calls in quick succession while disconnected leave exactly one pending
attempt — the second schedule, which replaced the first. -/
theorem reconnect_single_slot (st : SocketState) (hinv : TimerInv st) :
    (∀ n : Nat, (reconnectN n st).pendingTimers.length ≤ 1)
    ∧ (st.socketOpen = false →
        (reconnectN 2 st).pendingTimers
          = [(st.nextTimerId + 1, st.reconnectionDelay * (11 / 10 : ℚ))]) := by
  constructor
  · intro n; exact (timerInv_reconnectN n st hinv).1
  · intro h
    have h1 := reconnect_pending hinv h
    have h2 := reconnect_pending (timerInv_reconnect hinv) h1.2.2.2.1
    show (reconnect (reconnect st)).pendingTimers = _
    rw [h2.1, h1.2.2.1, h1.2.2.2.2]

/-- Witness for C8 from the fresh service state. -/
theorem reconnect_single_slot_witness :
    TimerInv initialState
    ∧ ((∀ n : Nat, (reconnectN n initialState).pendingTimers.length ≤ 1)
      ∧ (initialState.socketOpen = false →
          (reconnectN 2 initialState).pendingTimers
            = [(initialState.nextTimerId + 1,
                initialState.reconnectionDelay * (11 / 10 : ℚ))])) :=
  ⟨by decide, reconnect_single_slot initialState (by decide)⟩

/-- Witness for C3 at a concrete sorted buffer and cutoff. -/
theorem trim_boundary_witness :
    TsNondec [mkT 1, mkT 2]
    ∧ ((trim [mkT 1, mkT 2] 2).1
          = List.dropWhile (fun t => t.timestamp < 2) [mkT 1, mkT 2]
      ∧ (([mkT 1, mkT 2] = ([] : List Trade)
            ∨ (2 : Int) ≤ headTimestamp [mkT 1, mkT 2])
          → trim [mkT 1, mkT 2] 2 = ([mkT 1, mkT 2], false))
      ∧ ((∀ t ∈ [mkT 1, mkT 2], t.timestamp < 2)
          → (trim [mkT 1, mkT 2] 2).1 = [])) :=
  ⟨by decide, trim_boundary [mkT 1, mkT 2] 2 (by decide)⟩
/-! ### Claims about the history fetcher -/

/-- C9: two `fetch(t1, t2)` calls with identical arguments, the second before
the first resolves, issue exactly one network request: the first records the
URL key and fires, the second short-circuits to a resolved no-op. -/
theorem fetch_dedup (st : SocketState) (now now2 t1 t2 : Int) (ht : t2 ≠ 0)
    (hfresh : st.lastFetchUrl ≠ some (historyUrl st.httpUrl t1 t2)) :
    ((fetchStart now st t1 (some t2) false).2.1 = .issued (historyUrl st.httpUrl t1 t2))
    ∧ (fetchStart now st t1 (some t2) false).1.httpRequests
        = st.httpRequests ++ [historyUrl st.httpUrl t1 t2]
    ∧ ((fetchStart now2 (fetchStart now st t1 (some t2) false).1
          t1 (some t2) false).2.1 = .dedup)
    ∧ (fetchStart now2 (fetchStart now st t1 (some t2) false).1
          t1 (some t2) false).1.httpRequests
        = st.httpRequests ++ [historyUrl st.httpUrl t1 t2] := by
  refine ⟨?_, ?_, ?_, ?_⟩ <;> simp [fetchStart, ht, hfresh]

/-- Witness for C9 from the fresh state with range `[1, 2]`. -/
theorem fetch_dedup_witness :
    ((2 : Int) ≠ 0 ∧ initialState.lastFetchUrl ≠ some (historyUrl initialState.httpUrl 1 2))
    ∧ (((fetchStart 0 initialState 1 (some 2) false).2.1
          = .issued (historyUrl initialState.httpUrl 1 2))
      ∧ (fetchStart 0 initialState 1 (some 2) false).1.httpRequests
          = initialState.httpRequests ++ [historyUrl initialState.httpUrl 1 2]
      ∧ ((fetchStart 0 (fetchStart 0 initialState 1 (some 2) false).1
            1 (some 2) false).2.1 = .dedup)
      ∧ (fetchStart 0 (fetchStart 0 initialState 1 (some 2) false).1
            1 (some 2) false).1.httpRequests
          = initialState.httpRequests ++ [historyUrl initialState.httpUrl 1 2]) :=
  ⟨⟨by decide, by decide⟩, fetch_dedup initialState 0 0 1 2 (by decide) (by decide)⟩

/-- C10: the deduplication key is recorded before the request is issued and
is never cleared in the failure handler, so after a failed fetch an identical
retry still short-circuits to a no-op success with no new request. -/
theorem fetch_dedup_after_failure (st : SocketState) (now now2 t1 t2 : Int)
    (ht : t2 ≠ 0) (hfresh : st.lastFetchUrl ≠ some (historyUrl st.httpUrl t1 t2)) :
    ((fetchStart now st t1 (some t2) false).2.1 = .issued (historyUrl st.httpUrl t1 t2))
    ∧ ((fetchFail (fetchStart now st t1 (some t2) false).1 true).1.lastFetchUrl
        = some (historyUrl st.httpUrl t1 t2))
    ∧ ((fetchStart now2 (fetchFail (fetchStart now st t1 (some t2) false).1 true).1
          t1 (some t2) false).2.1 = .dedup)
    ∧ (fetchStart now2 (fetchFail (fetchStart now st t1 (some t2) false).1 true).1
          t1 (some t2) false).1.httpRequests
        = (fetchStart now st t1 (some t2) false).1.httpRequests := by
  refine ⟨?_, ?_, ?_, ?_⟩ <;> simp [fetchStart, fetchFail, ht, hfresh]

/-- Witness for C10 from the fresh state with range `[1, 2]`. -/
theorem fetch_dedup_after_failure_witness :
    ((2 : Int) ≠ 0 ∧ initialState.lastFetchUrl ≠ some (historyUrl initialState.httpUrl 1 2))
    ∧ (((fetchStart 0 initialState 1 (some 2) false).2.1
          = .issued (historyUrl initialState.httpUrl 1 2))
      ∧ ((fetchFail (fetchStart 0 initialState 1 (some 2) false).1 true).1.lastFetchUrl
          = some (historyUrl initialState.httpUrl 1 2))
      ∧ ((fetchStart 0 (fetchFail (fetchStart 0 initialState 1 (some 2) false).1 true).1
            1 (some 2) false).2.1 = .dedup)
      ∧ (fetchStart 0 (fetchFail (fetchStart 0 initialState 1 (some 2) false).1 true).1
            1 (some 2) false).1.httpRequests
          = (fetchStart 0 initialState 1 (some 2) false).1.httpRequests) :=
  ⟨⟨by decide, by decide⟩,
    fetch_dedup_after_failure initialState 0 0 1 2 (by decide) (by decide)⟩

/-! ### Claims about inbound frame handling -/

/-- C5 (the source contradicts the claim): a payload `JSON.parse` rejects
(malformed or empty) makes `socket.onmessage` throw, and the exception
escapes the handler — the frame is not silently dropped.  No state is
mutated and nothing is emitted, but the claim's "without raising an error
that escapes the handler" fails. -/
theorem malformed_frame_throws (now : Int) (st : SocketState) :
    handleMessage now st none = .error "SyntaxError: JSON.parse" := rfl

/-- C6 (the source contradicts the claim on falsy values): an empty array, a
control object with an unknown type and a truthy non-object are dropped with
no mutation, no notification and no error, but the well-formed frame `null`
is falsy and hits the explicit `throw new Error('Unable to read socket
message')`, which escapes the handler. -/
theorem unrecognized_frame_dropped (now : Int) (st : SocketState) :
    handleMessage now st (some (.jarr [])) = .ok (st, [])
    ∧ handleMessage now st (some (.jobj [("type", .jstr "mystery")])) = .ok (st, [])
    ∧ handleMessage now st (some (.jnum 5)) = .ok (st, [])
    ∧ handleMessage now st (some .jnull) = .error "Unable to read socket message" :=
  ⟨rfl, rfl, rfl, rfl⟩

/-- One-step unfolding of `handleMessage` on a successfully parsed value. -/
lemma handleMessage_some (now : Int) (st : SocketState) (v : JValue) :
    handleMessage now st (some v)
      = if truthy v
        then match v with
          | .jarr (x :: xs) =>
              let corrected := correctBatch st.delayed st.delay
                (sortTrades ((x :: xs).map decodeTrade))
              .ok ({ st with trades := st.trades ++ corrected }, [.evTrades corrected])
          | _ => dispatchControl now st v
        else .error "Unable to read socket message" := rfl

lemma dispatchControl_preserves_clock {now : Int} {st st' : SocketState}
    {v : JValue} {evs : List Event}
    (h : dispatchControl now st v = .ok (st', evs))
    (hnw : jGet v "type" ≠ some (.jstr "welcome")) :
    st'.delay = st.delay ∧ st'.delayed = st.delayed := by
  unfold dispatchControl at h
  split at h
  · exact absurd (by assumption) hnw
  all_goals
    simp only [Except.ok.injEq, Prod.mk.injEq] at h
    rw [← h.1]
    exact ⟨rfl, rfl⟩

/-- C4: a welcome frame reporting server time `localNow + 5000` stores the
offset 5000 and sets `delayed`; from then on both the live-batch branch and
the fetch success handler (which accept timestamps only through
`correctBatch`) shift every stored timestamp down by 5000; and no frame
other than a welcome ever rewrites the offset. -/
theorem clock_skew_compensation (localNow : Int) (hpos : 0 < localNow)
    (st : SocketState) :
    handleMessage localNow st (some (welcomeFrame (localNow + 5000)))
        = .ok ({ st with exchanges := [], delay := 5000, delayed := true },
            [.evWelcome, .evExchanges [], .evPair "BTCUSD" true,
             .evAlert "server_status" "info"])
    ∧ (∀ batch : List Trade,
        correctBatch true 5000 batch
          = batch.map (fun t => { t with timestamp := t.timestamp - 5000 }))
    ∧ (∀ buffer batch : List Trade,
        liveApply true 5000 buffer batch
          = buffer ++ (sortTrades batch).map
              (fun t => { t with timestamp := t.timestamp - 5000 }))
    ∧ (∀ (wr : Bool) (buffer batch : List Trade),
        histApply true 5000 wr buffer batch
          = if wr ∨ buffer.isEmpty
            then batch.map (fun t => { t with timestamp := t.timestamp - 5000 })
            else mergeHistorical buffer
              (batch.map (fun t => { t with timestamp := t.timestamp - 5000 })))
    ∧ (∀ (now2 : Int) (st2 st3 : SocketState) (v : JValue) (evs : List Event),
        handleMessage now2 st2 (some v) = .ok (st3, evs)
        → jGet v "type" ≠ some (.jstr "welcome")
        → st3.delay = st2.delay ∧ st3.delayed = st2.delayed) := by
  have h0 : ((localNow + 5000 : Int) != 0) = true := bne_iff_ne.mpr (by omega)
  have h5 : localNow + 5000 - localNow = (5000 : Int) := by omega
  refine ⟨?_, fun _ => rfl, fun _ _ => rfl, fun _ _ _ => rfl, ?_⟩
  · show dispatchControl localNow st (welcomeFrame (localNow + 5000)) = _
    simp [dispatchControl, welcomeFrame, jGet, jStrD, truthy, h0, h5]
  · intro now2 st2 st3 v evs hok hnw
    rw [handleMessage_some] at hok
    split at hok
    · split at hok
      · simp only [Except.ok.injEq, Prod.mk.injEq] at hok
        rw [← hok.1]
        exact ⟨rfl, rfl⟩
      · exact dispatchControl_preserves_clock hok hnw
    · exact Except.noConfusion hok

/-- Witness for C4 at local time 1000. -/
theorem clock_skew_compensation_witness :
    (0 : Int) < 1000
    ∧ (handleMessage 1000 initialState (some (welcomeFrame (1000 + 5000)))
          = .ok ({ initialState with exchanges := [], delay := 5000, delayed := true },
              [.evWelcome, .evExchanges [], .evPair "BTCUSD" true,
               .evAlert "server_status" "info"])
      ∧ (∀ batch : List Trade,
          correctBatch true 5000 batch
            = batch.map (fun t => { t with timestamp := t.timestamp - 5000 }))
      ∧ (∀ buffer batch : List Trade,
          liveApply true 5000 buffer batch
            = buffer ++ (sortTrades batch).map
                (fun t => { t with timestamp := t.timestamp - 5000 }))
      ∧ (∀ (wr : Bool) (buffer batch : List Trade),
          histApply true 5000 wr buffer batch
            = if wr ∨ buffer.isEmpty
              then batch.map (fun t => { t with timestamp := t.timestamp - 5000 })
              else mergeHistorical buffer
                (batch.map (fun t => { t with timestamp := t.timestamp - 5000 })))
      ∧ (∀ (now2 : Int) (st2 st3 : SocketState) (v : JValue) (evs : List Event),
          handleMessage now2 st2 (some v) = .ok (st3, evs)
          → jGet v "type" ≠ some (.jstr "welcome")
          → st3.delay = st2.delay ∧ st3.delayed = st2.delayed)) :=
  ⟨by decide, clock_skew_compensation 1000 (by decide) initialState⟩
